import Mathlib

/-!
# Slices-in-Cpp: a shallow embedding of `slice.cc`

A slice is a non-owning window `[spos_, epos_)` on a container that lives
elsewhere.  Containers are kept in a store addressed by references, so that
"the same container" means "the same reference".  `size_t` values are natural
numbers below `2^64`; every `size_t` operation of the source that can wrap is
written with an explicit reduction modulo `2^64`.  The build mode is the flag
`ndebug` (`true` when `NDEBUG` is defined, that is, bounds checking disabled).
-/

namespace Slices

/-! ## Machine integers -/

/-- Number of values of the 64-bit `size_t`. -/
def SIZE_MOD : Nat := 18446744073709551616

/-- The sentinel `static const size_t NOPE = std::numeric_limits<size_t>::max()`. -/
def NOPE : Nat := 18446744073709551615

/-- Reduction of an arithmetic result to a `size_t`. -/
def wrap (n : Nat) : Nat := n % SIZE_MOD

/-- Conversion of an `int64_t` argument to `size_t`. -/
def toSize (a : Int) : Nat := (a % (SIZE_MOD : Int)).toNat

/-! ## Data model -/

/-- The two fields of `class OutOfRangeException`. -/
structure OutOfRangeException where
  container_size_ : Nat
  indexed_size_ : Nat
deriving DecidableEq

/-- The enumeration `Position` (the source's `end` is a keyword here). -/
inductive Position where
  | beg
  | end_
  | all
deriving DecidableEq

/-- Ways in which a call does not return a value. -/
inductive Fault where
  /-- An `OutOfRangeException` was thrown. -/
  | thrown (e : OutOfRangeException)
  /-- An `assert` failed (only when `NDEBUG` is not defined). -/
  | assertion
  /-- The raw container was indexed outside its elements. -/
  | undefined
deriving DecidableEq

/-- A reference to a container (`Container&`). -/
abbrev Ref := Nat

/-- The containers of the program, by reference. -/
abbrev Store (α : Type) := Ref → List α

/-- The members of `detail::ContiguousContSlice`. -/
structure ContiguousContSlice where
  spos_ : Nat := 0
  epos_ : Nat := 0
  cont_ : Ref
deriving DecidableEq

/-- The facade `slice<Container>`: its only member is `impl_`. -/
structure slice where
  impl_ : ContiguousContSlice
deriving DecidableEq

/-! ## `ContiguousContSlice` -/

/-- Constructor `ContiguousContSlice(cont, end_pos)`: `spos_` keeps its default `0`. -/
def ContiguousContSlice.ctor2 (cont : Ref) (end_pos : Nat) : ContiguousContSlice :=
  { cont_ := cont, epos_ := end_pos }

/-- Constructor `ContiguousContSlice(cont, start_pos, end_pos)`. -/
def ContiguousContSlice.ctor3 (cont : Ref) (start_pos end_pos : Nat) : ContiguousContSlice :=
  { cont_ := cont, spos_ := start_pos, epos_ := end_pos }

/-- The member `len()`: `epos_ - spos_` in `size_t`. -/
def ContiguousContSlice.len (v : ContiguousContSlice) : Nat :=
  wrap (v.epos_ + SIZE_MOD - v.spos_)

/-- The member `operator[]`: `assert(index < len()); return cont_[spos_ + index];`. -/
def ContiguousContSlice.index {α : Type} (ndebug : Bool) (σ : Store α)
    (v : ContiguousContSlice) (index : Nat) : Except Fault α :=
  if ndebug = false ∧ ¬ index < v.len then .error .assertion
  else
    match (σ v.cont_)[wrap (v.spos_ + index)]? with
    | some x => .ok x
    | none => .error .undefined

/-! ## The facade constructors and `make_slice` -/

/-- Constructor flavour 1, `slice(cont, end_pos)`. -/
def slice.ctor2 {α : Type} (σ : Store α) (cont : Ref) (end_pos : Nat) : Except Fault slice :=
  if end_pos > (σ cont).length then
    .error (.thrown ⟨(σ cont).length, end_pos⟩)
  else .ok ⟨ContiguousContSlice.ctor2 cont end_pos⟩

/-- Constructor flavour 2, `slice(cont, start_pos, end_pos)`; `cont.size() - 1` is a
`size_t` subtraction. -/
def slice.ctor3 {α : Type} (σ : Store α) (cont : Ref) (start_pos end_pos : Nat) :
    Except Fault slice :=
  if start_pos > wrap ((σ cont).length + SIZE_MOD - 1) then
    .error (.thrown ⟨(σ cont).length, start_pos⟩)
  else if end_pos > (σ cont).length ∨ end_pos < start_pos then
    .error (.thrown ⟨(σ cont).length, end_pos⟩)
  else .ok ⟨ContiguousContSlice.ctor3 cont start_pos end_pos⟩

/-- The overload `make_slice(cont, end_pos)`. -/
def make_slice2 {α : Type} (σ : Store α) (cont : Ref) (end_pos : Nat) : Except Fault slice :=
  slice.ctor2 σ cont end_pos

/-- The overload `make_slice(cont, start_pos, end_pos)`. -/
def make_slice3 {α : Type} (σ : Store α) (cont : Ref) (start_pos end_pos : Nat) :
    Except Fault slice :=
  slice.ctor3 σ cont start_pos end_pos

/-! ## `BaseSlice`: the four forms of `operator()` -/

/-- The value of `pindex` after the three tests of the checked build. -/
def BaseSlice.pindex (derived : ContiguousContSlice) (start_pos end_pos : Nat) : Nat :=
  let pindex := NOPE
  let pindex := if start_pos > derived.len then start_pos else pindex
  let pindex := if end_pos < start_pos then end_pos else pindex
  let pindex := if end_pos > derived.epos_ then end_pos else pindex
  pindex

/-- The form `operator()(size_t start_pos, size_t end_pos)`. -/
def BaseSlice.call {α : Type} (ndebug : Bool) (σ : Store α) (derived : ContiguousContSlice)
    (start_pos end_pos : Nat) : Except Fault slice :=
  if ndebug = false ∧ BaseSlice.pindex derived start_pos end_pos ≠ NOPE then
    .error (.thrown ⟨(σ derived.cont_).length, BaseSlice.pindex derived start_pos end_pos⟩)
  else
    make_slice3 σ derived.cont_ (wrap (derived.spos_ + start_pos))
      (wrap (derived.spos_ + end_pos))

/-- The form `operator()(Position pos, int64_t end_pos)`. -/
def BaseSlice.call_beg {α : Type} (ndebug : Bool) (σ : Store α) (derived : ContiguousContSlice)
    (pos : Position) (end_pos : Int) : Except Fault slice :=
  if ndebug = false ∧ ¬ pos ≠ Position.all then .error .assertion
  else if ndebug = false ∧ ¬ pos ≠ Position.end_ then .error .assertion
  else
    make_slice3 σ derived.cont_ derived.spos_ (wrap (derived.spos_ + toSize end_pos))

/-- The form `operator()(int64_t start_pos, Position pos)`. -/
def BaseSlice.call_end {α : Type} (ndebug : Bool) (σ : Store α) (derived : ContiguousContSlice)
    (start_pos : Int) (pos : Position) : Except Fault slice :=
  if ndebug = false ∧ ¬ pos ≠ Position.all then .error .assertion
  else if ndebug = false ∧ ¬ pos ≠ Position.beg then .error .assertion
  else
    make_slice3 σ derived.cont_ (wrap (derived.spos_ + toSize start_pos)) derived.epos_

/-- The form `operator()(Position pos)`. -/
def BaseSlice.call_all {α : Type} (ndebug : Bool) (σ : Store α) (derived : ContiguousContSlice)
    (pos : Position) : Except Fault slice :=
  if ndebug = false ∧ ¬ pos = Position.all then .error .assertion
  else make_slice3 σ derived.cont_ derived.spos_ derived.epos_

/-! ## The facade `slice` -/

/-- The member `slice::len()`. -/
def slice.len (s : slice) : Nat := s.impl_.len

/-- The free function `len(slice)`. -/
def len (s : slice) : Nat := s.len

/-- The member `slice::operator()(int64_t a, int64_t b)`, which forwards to the
`(size_t, size_t)` form of `impl_`. -/
def slice.call {α : Type} (ndebug : Bool) (σ : Store α) (s : slice) (a b : Int) :
    Except Fault slice :=
  BaseSlice.call ndebug σ s.impl_ (toSize a) (toSize b)

/-- The member `slice::operator()(Position a, int64_t b)`. -/
def slice.call_beg {α : Type} (ndebug : Bool) (σ : Store α) (s : slice) (a : Position)
    (b : Int) : Except Fault slice :=
  BaseSlice.call_beg ndebug σ s.impl_ a b

/-- The member `slice::operator()(int64_t a, Position b)`. -/
def slice.call_end {α : Type} (ndebug : Bool) (σ : Store α) (s : slice) (a : Int)
    (b : Position) : Except Fault slice :=
  BaseSlice.call_end ndebug σ s.impl_ a b

/-- The member `slice::operator()(Position a)`. -/
def slice.call_all {α : Type} (ndebug : Bool) (σ : Store α) (s : slice) (a : Position) :
    Except Fault slice :=
  BaseSlice.call_all ndebug σ s.impl_ a

/-- The member `slice::operator[]`. -/
def slice.index {α : Type} (ndebug : Bool) (σ : Store α) (s : slice) (index : Nat) :
    Except Fault α :=
  s.impl_.index ndebug σ index

/-! ## Specification vocabulary -/

/-- The view invariant of the data model: `0 ≤ start ≤ end ≤ length`. -/
def Valid {α : Type} (σ : Store α) (v : slice) : Prop :=
  v.impl_.spos_ ≤ v.impl_.epos_ ∧ v.impl_.epos_ ≤ (σ v.impl_.cont_).length

instance {α : Type} (σ : Store α) (v : slice) : Decidable (Valid σ v) := by
  unfold Valid; infer_instance

/-- The views a program can obtain over an unchanging store: those returned by
either overload of `make_slice`, and those returned by a form of `operator()`
applied to such a view. -/
inductive Reachable {α : Type} (ndebug : Bool) (σ : Store α) : slice → Prop where
  | make2 (cont : Ref) (end_pos : Nat) (v : slice) :
      make_slice2 σ cont end_pos = .ok v → Reachable ndebug σ v
  | make3 (cont : Ref) (start_pos end_pos : Nat) (v : slice) :
      make_slice3 σ cont start_pos end_pos = .ok v → Reachable ndebug σ v
  | call (u v : slice) (a b : Int) :
      Reachable ndebug σ u → u.call ndebug σ a b = .ok v → Reachable ndebug σ v
  | call_beg (u v : slice) (a : Position) (b : Int) :
      Reachable ndebug σ u → u.call_beg ndebug σ a b = .ok v → Reachable ndebug σ v
  | call_end (u v : slice) (a : Int) (b : Position) :
      Reachable ndebug σ u → u.call_end ndebug σ a b = .ok v → Reachable ndebug σ v
  | call_all (u v : slice) (a : Position) :
      Reachable ndebug σ u → u.call_all ndebug σ a = .ok v → Reachable ndebug σ v

/-- The container `{1,2,3,4,5,6,7,8,9,10}` of `main`, under every reference. -/
def vecStore : Store Int := fun _ => [1, 2, 3, 4, 5, 6, 7, 8, 9, 10]

/-- A three-element container under every reference. -/
def store3 : Store Int := fun _ => [1, 2, 3]

/-- A one-element container under every reference. -/
def store1 : Store Int := fun _ => [7]

/-- View of a container at `[s, e)`, as a value. -/
def view (cont : Ref) (s e : Nat) : slice := ⟨⟨s, e, cont⟩⟩

/-- What the three-argument constructor of the facade lets through: the start offset is at most
`cont.size() - 1` (a `size_t`), the end offset is at most `cont.size()` and not before the start
offset. -/
def Accepted {α : Type} (σ : Store α) (v : slice) : Prop :=
  v.impl_.spos_ ≤ wrap ((σ v.impl_.cont_).length + SIZE_MOD - 1) ∧
    v.impl_.epos_ ≤ (σ v.impl_.cont_).length ∧ v.impl_.spos_ ≤ v.impl_.epos_

/-! ## Assignment -/

/-- The member `ContiguousContSlice::operator=`.  `cont_` is a reference member, so
`cont_ = other.cont_` assigns the container `other` refers to onto the container this slice refers
to; then the two offsets are copied.  The result is the store after the assignment and the members
of the assigned slice. -/
def ContiguousContSlice.assign {α : Type} (σ : Store α) (self other : ContiguousContSlice) :
    Store α × ContiguousContSlice :=
  (Function.update σ self.cont_ (σ other.cont_),
    { cont_ := self.cont_, spos_ := other.spos_, epos_ := other.epos_ })

/-- The assignment `t = s` of facades, which assigns the member `impl_` (the base-class
subobject of a facade is an empty container of its own and is left out). -/
def slice.assign {α : Type} (σ : Store α) (t s : slice) : Store α × slice :=
  ((t.impl_.assign σ s.impl_).1, ⟨(t.impl_.assign σ s.impl_).2⟩)

/-! ## Writing through `operator[]` -/

/-- The statement `v[index]++`, for an element type whose increment is `inc`: the mutable
`operator[]` returns a reference to `cont_[spos_ + index]`, which is incremented in place. -/
def ContiguousContSlice.increment {α : Type} (inc : α → α) (ndebug : Bool) (σ : Store α)
    (v : ContiguousContSlice) (index : Nat) : Except Fault (Store α) :=
  if ndebug = false ∧ ¬ index < v.len then .error .assertion
  else
    match (σ v.cont_)[wrap (v.spos_ + index)]? with
    | some x =>
      .ok (Function.update σ v.cont_ ((σ v.cont_).set (wrap (v.spos_ + index)) (inc x)))
    | none => .error .undefined

/-- The statement `vslice[index]++` on a facade. -/
def slice.increment {α : Type} (inc : α → α) (ndebug : Bool) (σ : Store α) (s : slice)
    (index : Nat) : Except Fault (Store α) :=
  s.impl_.increment inc ndebug σ index

/-- The loop `for (size_t i = 0; i < len(vslice); i++) { vslice[i]++; }` of `main`, entered with
the counter at `i`.  The counter stays below `len(vslice)`, so `i++` does not wrap. -/
def increment_loop {α : Type} (inc : α → α) (ndebug : Bool) (vslice : slice) (σ : Store α)
    (i : Nat) : Except Fault (Store α) :=
  if i < len vslice then
    match vslice.increment inc ndebug σ i with
    | .ok σ1 => increment_loop inc ndebug vslice σ1 (i + 1)
    | .error f => .error f
  else .ok σ
termination_by len vslice - i

/-! ## Iteration -/

/-- The member `begin()`, `cont_.begin() + spos_`: an iterator is its position in the
container. -/
def ContiguousContSlice.begin_ (v : ContiguousContSlice) : Nat := v.spos_

/-- The member `end()`, `cont_.begin() + epos_`. -/
def ContiguousContSlice.end_ (v : ContiguousContSlice) : Nat := v.epos_

/-- The member `slice::begin()`. -/
def slice.begin_ (s : slice) : Nat := s.impl_.begin_

/-- The member `slice::end()`. -/
def slice.end_ (s : slice) : Nat := s.impl_.end_

/-- The traversal `for (it = first; it != last; ++it)` over the elements `l` of a container: the
positions dereferenced, in order, each with the element read there.  Dereferencing a position at
or past the end of the container is undefined. -/
def traverse {α : Type} (l : List α) (it last : Nat) : Except Fault (List (Nat × α)) :=
  if it = last then .ok []
  else if h : it < l.length then
    match traverse l (it + 1) last with
    | .ok rest => .ok ((it, l[it]) :: rest)
    | .error f => .error f
  else .error .undefined
termination_by l.length - it

/-- The range-based `for (auto& v : slice)` of `print_slice`. -/
def slice.iterate {α : Type} (σ : Store α) (s : slice) : Except Fault (List (Nat × α)) :=
  traverse (σ s.impl_.cont_) s.begin_ s.end_

/-! ## `binary_search` -/

/-- Conversion of a `size_t` value to the 32-bit `int`: reduction modulo `2^32` into the two's
complement range. -/
def toInt (n : Nat) : Int :=
  if n % 4294967296 < 2147483648 then ((n % 4294967296 : Nat) : Int)
  else ((n % 4294967296 : Nat) : Int) - 4294967296

/-- The function `binary_search(slice, val)`.  The recursion depth is bounded by the first
argument; `none` means that this bound was reached.  `slice[mid]` is read once, as both reads of
the source return the same element; `mid + 1` is the sum of the source where it does not
overflow `int`. -/
def binary_search {α : Type} [LinearOrder α] (ndebug : Bool) (σ : Store α) :
    Nat → slice → α → Option (Except Fault Bool)
  | 0, _, _ => none
  | fuel + 1, slice, val =>
    let mid : Int := toInt (len slice / 2)
    match slice.index ndebug σ (toSize mid) with
    | .error f => some (.error f)
    | .ok x =>
      if x = val then some (.ok true)
      else if mid = 0 then some (.ok false)
      else if val > x then
        match slice.call_end ndebug σ (mid + 1) Position.end_ with
        | .error f => some (.error f)
        | .ok s => binary_search ndebug σ fuel s val
      else
        match slice.call_beg ndebug σ Position.beg mid with
        | .error f => some (.error f)
        | .ok s => binary_search ndebug σ fuel s val

/-! ## Rendering of the exception -/

/-- The member `OutOfRangeException::what()`.  The stream `oss_` is a static member, shared by
all exceptions and empty at program start; `oss_.clear()` resets the error flags of the stream
and leaves its contents in place.  The argument is the contents of `oss_` before the call; the
result is the rendered text and the contents of `oss_` after the call. -/
def OutOfRangeException.what (e : OutOfRangeException) (oss_ : String) : String × String :=
  (oss_ ++ "Out of range" ++ "\n" ++ "Container size = " ++ toString e.container_size_ ++ "\n"
      ++ "Indexed size = " ++ toString e.indexed_size_,
    oss_ ++ "Out of range" ++ "\n" ++ "Container size = " ++ toString e.container_size_ ++ "\n"
      ++ "Indexed size = " ++ toString e.indexed_size_)

/-! ## Example containers -/

/-- Two containers: `{1, 2, 3}` under the reference 0 and `{7, 8}` under every other one. -/
def storeAB : Store Int := fun r => if r = 0 then [1, 2, 3] else [7, 8]

/-- The container `{1, 2}` under every reference. -/
def store12 : Store Int := fun _ => [1, 2]

/-- The container `{1, 3, 5, 7, 9}` under every reference. -/
def storeOdd : Store Int := fun _ => [1, 3, 5, 7, 9]

/-- The string `"!ABCDEFGH"` of `binary_search_ex`, under every reference. -/
def strStore : Store Char := fun _ => ['!', 'A', 'B', 'C', 'D', 'E', 'F', 'G', 'H']

/-- A container of `2^32` equal characters, under every reference. -/
def bigStore : Store Char := fun _ => List.replicate 4294967296 'a'

/-! ## Arithmetic and constructor lemmas -/

theorem wrap_of_lt {n : Nat} (h : n < SIZE_MOD) : wrap n = n := by
  unfold wrap; exact Nat.mod_eq_of_lt h

theorem toSize_natCast {n : Nat} (h : n < SIZE_MOD) : toSize (n : Int) = n := by
  unfold toSize
  rw [← Int.natCast_mod, Int.toNat_natCast]
  exact Nat.mod_eq_of_lt h

theorem len_eq_sub {v : ContiguousContSlice} (h1 : v.spos_ ≤ v.epos_) (h2 : v.epos_ < SIZE_MOD) :
    v.len = v.epos_ - v.spos_ := by
  unfold ContiguousContSlice.len wrap
  unfold SIZE_MOD at *
  omega

theorem wrap_pred_size {n : Nat} (h : n < SIZE_MOD) :
    wrap (n + SIZE_MOD - 1) = if n = 0 then NOPE else n - 1 := by
  unfold wrap NOPE
  unfold SIZE_MOD at *
  split_ifs <;> omega

theorem make_slice3_eq {α : Type} (σ : Store α) (c : Ref) (s e : Nat) :
    make_slice3 σ c s e =
      if s > wrap ((σ c).length + SIZE_MOD - 1) then
        .error (.thrown ⟨(σ c).length, s⟩)
      else if e > (σ c).length ∨ e < s then .error (.thrown ⟨(σ c).length, e⟩)
      else .ok (view c s e) := rfl

theorem make_slice3_ok {α : Type} {σ : Store α} {c : Ref} {s e : Nat} {v : slice}
    (h : make_slice3 σ c s e = .ok v) : v = view c s e ∧ Accepted σ v := by
  rw [make_slice3_eq] at h
  split_ifs at h with h1 h2
  have hv : view c s e = v := by injection h
  subst hv
  refine ⟨rfl, ?_⟩
  simp only [Accepted, view]
  omega

theorem make_slice3_of_accepted {α : Type} {σ : Store α} {v : slice} (h : Accepted σ v) :
    make_slice3 σ v.impl_.cont_ v.impl_.spos_ v.impl_.epos_ = .ok v := by
  obtain ⟨h1, h2, h3⟩ := h
  rw [make_slice3_eq, if_neg (by omega), if_neg (by omega)]
  rfl

theorem make_slice2_ok {α : Type} {σ : Store α} {c : Ref} {e : Nat} {v : slice}
    (h : make_slice2 σ c e = .ok v) : v = view c 0 e ∧ Accepted σ v := by
  unfold make_slice2 slice.ctor2 at h
  split_ifs at h with h1
  have hv : (⟨ContiguousContSlice.ctor2 c e⟩ : slice) = v := by injection h
  subst hv
  refine ⟨rfl, ?_⟩
  simp only [Accepted, ContiguousContSlice.ctor2]
  omega

theorem BaseSlice.call_ok {α : Type} {ndebug : Bool} {σ : Store α} {u : ContiguousContSlice}
    {s e : Nat} {v : slice} (h : BaseSlice.call ndebug σ u s e = .ok v) : Accepted σ v := by
  unfold BaseSlice.call at h
  split_ifs at h
  exact (make_slice3_ok h).2

theorem BaseSlice.call_beg_ok {α : Type} {ndebug : Bool} {σ : Store α}
    {u : ContiguousContSlice} {p : Position} {e : Int} {v : slice}
    (h : BaseSlice.call_beg ndebug σ u p e = .ok v) : Accepted σ v := by
  unfold BaseSlice.call_beg at h
  split_ifs at h
  exact (make_slice3_ok h).2

theorem BaseSlice.call_end_ok {α : Type} {ndebug : Bool} {σ : Store α}
    {u : ContiguousContSlice} {p : Position} {s : Int} {v : slice}
    (h : BaseSlice.call_end ndebug σ u s p = .ok v) : Accepted σ v := by
  unfold BaseSlice.call_end at h
  split_ifs at h
  exact (make_slice3_ok h).2

theorem BaseSlice.call_all_ok {α : Type} {ndebug : Bool} {σ : Store α}
    {u : ContiguousContSlice} {p : Position} {v : slice}
    (h : BaseSlice.call_all ndebug σ u p = .ok v) : Accepted σ v := by
  unfold BaseSlice.call_all at h
  split_ifs at h
  exact (make_slice3_ok h).2

theorem Reachable.accepted {α : Type} {ndebug : Bool} {σ : Store α} {v : slice}
    (h : Reachable ndebug σ v) : Accepted σ v := by
  cases h with
  | make2 c e _ h => exact (make_slice2_ok h).2
  | make3 c s e _ h => exact (make_slice3_ok h).2
  | call u _ a b _ h => exact BaseSlice.call_ok h
  | call_beg u _ a b _ h => exact BaseSlice.call_beg_ok h
  | call_end u _ a b _ h => exact BaseSlice.call_end_ok h
  | call_all u _ a _ h => exact BaseSlice.call_all_ok h

theorem valid_of_accepted {α : Type} {σ : Store α} {v : slice} (h : Accepted σ v) :
    Valid σ v :=
  ⟨h.2.2, h.2.1⟩

theorem valid_of_reachable {α : Type} {ndebug : Bool} {σ : Store α} {v : slice}
    (h : Reachable ndebug σ v) : Valid σ v :=
  valid_of_accepted h.accepted

theorem make_slice3_in_range {α : Type} {σ : Store α} {c : Ref} {s e : Nat}
    (hsz : (σ c).length < SIZE_MOD) (hse : s ≤ e) (he : e ≤ (σ c).length)
    (hs : s < (σ c).length ∨ (σ c).length = 0) :
    make_slice3 σ c s e = .ok (view c s e) := by
  have hp := wrap_pred_size hsz
  rw [make_slice3_eq, if_neg, if_neg]
  · omega
  · rw [hp]; unfold NOPE; unfold SIZE_MOD at hsz; split_ifs <;> omega

theorem make_slice3_at_size {α : Type} {σ : Store α} {c : Ref} {s e : Nat}
    (hsz : (σ c).length < SIZE_MOD) (hs : (σ c).length ≤ s) (hpos : 0 < (σ c).length) :
    make_slice3 σ c s e = .error (.thrown ⟨(σ c).length, s⟩) := by
  have hp := wrap_pred_size hsz
  rw [make_slice3_eq, if_pos]
  rw [hp]; split_ifs <;> omega

theorem pindex_in_range {u : ContiguousContSlice} {a b : Nat} (h1 : u.spos_ ≤ u.epos_)
    (h2 : u.epos_ < SIZE_MOD) (hab : a ≤ b) (hb : b ≤ u.len) :
    BaseSlice.pindex u a b = NOPE := by
  have hl := len_eq_sub h1 h2
  unfold BaseSlice.pindex
  simp only
  rw [if_neg (by omega), if_neg (by omega), if_neg (by omega)]

theorem call_in_range {α : Type} (ndebug : Bool) {σ : Store α} {v : slice} {a b : Nat}
    (hv : Valid σ v) (hsz : (σ v.impl_.cont_).length < SIZE_MOD) (hab : a ≤ b)
    (hb : b ≤ len v) :
    v.call ndebug σ (a : Int) (b : Int) =
      make_slice3 σ v.impl_.cont_ (v.impl_.spos_ + a) (v.impl_.spos_ + b) := by
  obtain ⟨h1, h2⟩ := hv
  have h3 : v.impl_.epos_ < SIZE_MOD := lt_of_le_of_lt h2 hsz
  have hl := len_eq_sub h1 h3
  have hb1 : b ≤ v.impl_.len := hb
  have hbM : b < SIZE_MOD := by omega
  have haM : a < SIZE_MOD := by omega
  unfold slice.call BaseSlice.call
  rw [toSize_natCast haM, toSize_natCast hbM, pindex_in_range h1 h3 hab hb1]
  rw [if_neg (by simp), wrap_of_lt (by omega), wrap_of_lt (by omega)]

/-! ## The construction and re-slicing contract -/

/-- C1 (as amended).  For offsets `s ≤ e ≤ length(c)`, `make_slice(c, s, e)` returns the view
`[s, e)`, whose length is `e - s`, when `s < length(c)` or `c` is empty; when `s = e = length(c)`
on a non-empty container it throws, reporting `length(c)` and `s`. -/
theorem make_slice3_len {α : Type} (σ : Store α) (c : Ref) (s e : Nat)
    (hsz : (σ c).length < SIZE_MOD) (hse : s ≤ e) (he : e ≤ (σ c).length) :
    ((s < (σ c).length ∨ (σ c).length = 0) →
        make_slice3 σ c s e = .ok (view c s e) ∧ len (view c s e) = e - s) ∧
    ((s = (σ c).length ∧ 0 < (σ c).length) →
        make_slice3 σ c s e = .error (.thrown ⟨(σ c).length, s⟩)) := by
  have hp := wrap_pred_size hsz
  constructor
  · intro hs
    constructor
    · rw [make_slice3_eq, if_neg, if_neg]
      · omega
      · rw [hp]; unfold NOPE; unfold SIZE_MOD at hsz; split_ifs <;> omega
    · exact len_eq_sub hse (lt_of_le_of_lt he hsz)
  · intro hs
    rw [make_slice3_eq, if_pos]
    rw [hp]; split_ifs <;> omega

/-- C1, witness: the first statement of `main`, `make_slice(vec, 0, vec.size())`. -/
theorem make_slice3_len_witness :
    make_slice3 vecStore 0 0 10 = .ok (view 0 0 10) ∧ len (view 0 0 10) = 10 - 0 :=
  (make_slice3_len vecStore 0 0 10 (by decide) (by decide) (by decide)).1 (Or.inl (by decide))

/-- C1, counterexample: over a one-element container the offsets `s = e = 1` satisfy
`0 ≤ s ≤ e ≤ length`, yet `make_slice` throws instead of returning the empty view. -/
theorem make_slice3_len_counterexample :
    (1 ≤ 1 ∧ 1 ≤ (store1 0).length) ∧
      make_slice3 store1 0 1 1 = .error (.thrown ⟨1, 1⟩) :=
  ⟨by decide, rfl⟩

/-- C2.  For a view obtained from `make_slice` or from re-slicing, and an index below its
length, `v[i]` addresses a position inside the container and returns the container's element at
`start_offset + i`, in either build mode. -/
theorem index_reachable {α : Type} (ndebug : Bool) (σ : Store α) (v : slice) (i : Nat)
    (hr : Reachable ndebug σ v) (hsz : (σ v.impl_.cont_).length < SIZE_MOD)
    (hi : i < len v) :
    v.impl_.spos_ + i < (σ v.impl_.cont_).length ∧
      ∃ x, (σ v.impl_.cont_)[v.impl_.spos_ + i]? = some x ∧ v.index ndebug σ i = .ok x := by
  obtain ⟨-, h2, h1⟩ := hr.accepted
  have h3 : v.impl_.epos_ < SIZE_MOD := lt_of_le_of_lt h2 hsz
  have hl := len_eq_sub h1 h3
  have hi1 : i < v.impl_.len := hi
  have hlt : v.impl_.spos_ + i < (σ v.impl_.cont_).length := by omega
  refine ⟨hlt, (σ v.impl_.cont_)[v.impl_.spos_ + i], List.getElem?_eq_getElem hlt, ?_⟩
  unfold slice.index ContiguousContSlice.index
  rw [if_neg (by simp [hi1]), wrap_of_lt (by omega), List.getElem?_eq_getElem hlt]

/-- C2, witness: index 2 of the view `[2, 8)` of the container of `main`. -/
theorem index_reachable_witness :
    (view 0 2 8).impl_.spos_ + 2 < (vecStore (view 0 2 8).impl_.cont_).length ∧
      ∃ x, (vecStore (view 0 2 8).impl_.cont_)[(view 0 2 8).impl_.spos_ + 2]? = some x ∧
        (view 0 2 8).index false vecStore 2 = .ok x :=
  index_reachable false vecStore (view 0 2 8) 2 (Reachable.make3 0 2 8 _ rfl) (by decide)
    (by decide)

/-- C3 (as amended).  For a valid view `v` and relative offsets `a ≤ b ≤ len(v)`, `v(a, b)`
returns the view `[start_offset(v) + a, start_offset(v) + b)` over the same container, of length
`b - a`, when `start_offset(v) + a` is below the container's length or the container is empty;
when `start_offset(v) + a` equals the length of a non-empty container it throws, reporting that
length and `start_offset(v) + a`. -/
theorem call_bounds {α : Type} (ndebug : Bool) (σ : Store α) (v : slice) (a b : Nat)
    (hv : Valid σ v) (hsz : (σ v.impl_.cont_).length < SIZE_MOD) (hab : a ≤ b)
    (hb : b ≤ len v) :
    ((v.impl_.spos_ + a < (σ v.impl_.cont_).length ∨ (σ v.impl_.cont_).length = 0) →
        v.call ndebug σ (a : Int) (b : Int)
            = .ok (view v.impl_.cont_ (v.impl_.spos_ + a) (v.impl_.spos_ + b)) ∧
          len (view v.impl_.cont_ (v.impl_.spos_ + a) (v.impl_.spos_ + b)) = b - a) ∧
    ((v.impl_.spos_ + a = (σ v.impl_.cont_).length ∧ 0 < (σ v.impl_.cont_).length) →
        v.call ndebug σ (a : Int) (b : Int)
          = .error (.thrown ⟨(σ v.impl_.cont_).length, v.impl_.spos_ + a⟩)) := by
  have hc := call_in_range ndebug hv hsz hab hb
  obtain ⟨h1, h2⟩ := hv
  have h3 : v.impl_.epos_ < SIZE_MOD := lt_of_le_of_lt h2 hsz
  have hl := len_eq_sub h1 h3
  have hb1 : b ≤ v.impl_.len := hb
  constructor
  · intro hs
    constructor
    · rw [hc]; exact make_slice3_in_range hsz (by omega) (by omega) hs
    · show ContiguousContSlice.len _ = _
      rw [len_eq_sub (by simp only [view]; omega) (by simp only [view]; omega)]
      simp only [view]; omega
  · intro hs
    rw [hc]; exact make_slice3_at_size hsz (by omega) hs.2

/-- C3, witness: the last re-slice of `main`, `vslice(1, len(vslice))` on the view `[2, 6)`. -/
theorem call_bounds_witness :
    (view 0 2 6).call false vecStore ((1 : Nat) : Int) ((4 : Nat) : Int)
        = .ok (view (view 0 2 6).impl_.cont_ ((view 0 2 6).impl_.spos_ + 1)
            ((view 0 2 6).impl_.spos_ + 4)) ∧
      len (view (view 0 2 6).impl_.cont_ ((view 0 2 6).impl_.spos_ + 1)
            ((view 0 2 6).impl_.spos_ + 4)) = 4 - 1 :=
  (call_bounds false vecStore (view 0 2 6) 1 4 (by decide) (by decide) (by decide)
    (by decide)).1 (Or.inl (by decide))

/-- C3, counterexample: the full view of a one-element container is returned by `make_slice`
and has length 1; the offsets `a = b = 1` satisfy `a ≤ b ≤ len(v)`, yet `v(1, 1)` throws in both
build modes. -/
theorem call_bounds_counterexample :
    make_slice3 store1 0 0 1 = .ok (view 0 0 1) ∧ len (view 0 0 1) = 1 ∧
      (view 0 0 1).call false store1 1 1 = .error (.thrown ⟨1, 1⟩) ∧
      (view 0 0 1).call true store1 1 1 = .error (.thrown ⟨1, 1⟩) :=
  ⟨rfl, rfl, rfl, rfl⟩

/-- C4.  For a valid view `v` and offsets `a ≤ b ≤ len(v)`, `c ≤ d ≤ b - a`, re-slicing twice,
`v(a, b)(c, d)`, has the same outcome as `make_slice` on the container of `v` at the added
offsets `[start_offset(v) + a + c, start_offset(v) + a + d)`; when the composed start lies below
the container's length, that outcome is the view with exactly these bounds over the same
container.  This holds in either build mode. -/
theorem call_call {α : Type} (ndebug : Bool) (σ : Store α) (v : slice) (a b c d : Nat)
    (hv : Valid σ v) (hsz : (σ v.impl_.cont_).length < SIZE_MOD) (hab : a ≤ b)
    (hb : b ≤ len v) (hcd : c ≤ d) (hd : d ≤ b - a) :
    (v.call ndebug σ (a : Int) (b : Int) >>= fun w => w.call ndebug σ (c : Int) (d : Int))
        = make_slice3 σ v.impl_.cont_ (v.impl_.spos_ + a + c) (v.impl_.spos_ + a + d) ∧
    (v.impl_.spos_ + a + c < (σ v.impl_.cont_).length →
      (v.call ndebug σ (a : Int) (b : Int) >>= fun w => w.call ndebug σ (c : Int) (d : Int))
        = .ok (view v.impl_.cont_ (v.impl_.spos_ + a + c) (v.impl_.spos_ + a + d))) := by
  have hc := call_in_range ndebug hv hsz hab hb
  have h1 := hv.1
  have h2 := hv.2
  have h3 : v.impl_.epos_ < SIZE_MOD := lt_of_le_of_lt h2 hsz
  have hl := len_eq_sub h1 h3
  have hb1 : b ≤ v.impl_.len := hb
  have key : (v.call ndebug σ (a : Int) (b : Int) >>= fun w => w.call ndebug σ (c : Int) (d : Int))
        = make_slice3 σ v.impl_.cont_ (v.impl_.spos_ + a + c) (v.impl_.spos_ + a + d) := by
    rw [hc]
    by_cases hs : v.impl_.spos_ + a < (σ v.impl_.cont_).length ∨ (σ v.impl_.cont_).length = 0
    · rw [make_slice3_in_range hsz (by omega) (by omega) hs]
      have hw : Valid σ (view v.impl_.cont_ (v.impl_.spos_ + a) (v.impl_.spos_ + b)) := by
        simp only [Valid, view]; omega
      have hlw : len (view v.impl_.cont_ (v.impl_.spos_ + a) (v.impl_.spos_ + b)) = b - a := by
        show ContiguousContSlice.len _ = _
        rw [len_eq_sub (by simp only [view]; omega) (by simp only [view]; omega)]
        simp only [view]; omega
      show (view v.impl_.cont_ (v.impl_.spos_ + a) (v.impl_.spos_ + b)).call ndebug σ c d = _
      rw [call_in_range ndebug hw hsz hcd (by omega)]
      rfl
    · have hpos : 0 < (σ v.impl_.cont_).length := by omega
      rw [make_slice3_at_size hsz (by omega) hpos, make_slice3_at_size hsz (by omega) hpos]
      have hc0 : c = 0 := by omega
      subst hc0
      rfl
  refine ⟨key, fun hs => ?_⟩
  rw [key]
  exact make_slice3_in_range hsz (by omega) (by omega) (Or.inl hs)

/-- C4, witness: on the full view of the container of `main`, `v(2, 8)(1, 3)` is the view
`[3, 5)`. -/
theorem call_call_witness :
    ((view 0 0 10).call false vecStore ((2 : Nat) : Int) ((8 : Nat) : Int) >>=
        fun w => w.call false vecStore ((1 : Nat) : Int) ((3 : Nat) : Int))
      = .ok (view (view 0 0 10).impl_.cont_ ((view 0 0 10).impl_.spos_ + 2 + 1)
          ((view 0 0 10).impl_.spos_ + 2 + 3)) :=
  (call_call false vecStore (view 0 0 10) 2 8 1 3 (by decide) (by decide) (by decide)
    (by decide) (by decide) (by decide)).2 (by decide)

/-- C5, evaluated at the failing input: over a three-element container the view `[0, 1)` is
returned by `make_slice`; with bounds checking enabled `v(beg, 2)` returns the view `[0, 2)`
while `v(0, 2)` throws. -/
theorem call_beg_vs_call_eval :
    make_slice3 store3 0 0 1 = .ok (view 0 0 1) ∧
      (view 0 0 1).call_beg false store3 Position.beg 2 = .ok (view 0 0 2) ∧
      (view 0 0 1).call false store3 0 2 = .error (.thrown ⟨3, 2⟩) :=
  ⟨rfl, rfl, rfl⟩

/-- C6, evaluated at the failing inputs: over a three-element container the view `v = [1, 2)`
is returned by `make_slice` and has length 1.  With bounds checking enabled `v(-1, end)` returns
the view `[0, 2)` while `v(-1, len(v))` throws; and `v(2, end)` and `v(2, len(v))` both throw,
reporting different offsets. -/
theorem call_end_vs_call_eval :
    make_slice3 store3 0 1 2 = .ok (view 0 1 2) ∧ len (view 0 1 2) = 1 ∧
      (view 0 1 2).call_end false store3 (-1) Position.end_ = .ok (view 0 0 2) ∧
      (view 0 1 2).call false store3 (-1) 1 = .error (.thrown ⟨3, 1⟩) ∧
      (view 0 1 2).call_end false store3 2 Position.end_ = .error (.thrown ⟨3, 3⟩) ∧
      (view 0 1 2).call false store3 2 1 = .error (.thrown ⟨3, 1⟩) :=
  ⟨rfl, rfl, rfl, rfl, rfl, rfl⟩

/-- C7.  For a view obtained from `make_slice` or from re-slicing, `v(all)` returns, in either
build mode, a view equal to `v`: same start offset, same end offset, same container. -/
theorem call_all_reachable {α : Type} (ndebug : Bool) (σ : Store α) (v : slice)
    (hr : Reachable ndebug σ v) : v.call_all ndebug σ Position.all = .ok v := by
  unfold slice.call_all BaseSlice.call_all
  rw [if_neg (by simp)]
  exact make_slice3_of_accepted hr.accepted

/-- C7, witness: `v(all)` on the view `[2, 8)` of the container of `main`. -/
theorem call_all_reachable_witness :
    (view 0 2 8).call_all false vecStore Position.all = .ok (view 0 2 8) :=
  call_all_reachable false vecStore (view 0 2 8) (Reachable.make3 0 2 8 _ rfl)

/-- C8, evaluated at the failing input: over a three-element container the view `v = [1, 2)`
is returned by `make_slice` and has length 1; with bounds checking enabled `v(0, 2)` has
`end > len(v)`, yet it returns the view `[1, 3)`. -/
theorem call_end_past_len_eval :
    make_slice3 store3 0 1 2 = .ok (view 0 1 2) ∧ len (view 0 1 2) = 1 ∧
      BaseSlice.pindex (view 0 1 2).impl_ 0 2 = NOPE ∧
      (view 0 1 2).call false store3 0 2 = .ok (view 0 1 3) :=
  ⟨rfl, rfl, rfl, rfl⟩

/-- C9 (as amended).  With bounds checking enabled, when the validation inside `v(start, end)`
fails, the exception carries the container's size and the last offending value in the order
start-too-large, end-before-start, end-too-large (last match wins): `end` when the test
`end_pos > epos_` or the test `end_pos < start_pos` of the source matches, also when
`start > len(v)` as well, and otherwise `start`, which then exceeds `len(v)`. -/
theorem call_checked_report {α : Type} (σ : Store α) (v : slice) (a b : Int)
    (hfail : BaseSlice.pindex v.impl_ (toSize a) (toSize b) ≠ NOPE) :
    v.call false σ a b = .error (.thrown ⟨(σ v.impl_.cont_).length,
        if toSize b > v.impl_.epos_ ∨ toSize b < toSize a then toSize b else toSize a⟩) ∧
      (¬ (toSize b > v.impl_.epos_ ∨ toSize b < toSize a) → toSize a > len v) := by
  have hp : BaseSlice.pindex v.impl_ (toSize a) (toSize b) =
      if toSize b > v.impl_.epos_ ∨ toSize b < toSize a then toSize b else toSize a := by
    unfold BaseSlice.pindex at hfail ⊢
    simp only at hfail ⊢
    split_ifs at hfail ⊢ <;> first | rfl | omega
  constructor
  · unfold slice.call BaseSlice.call
    rw [if_pos ⟨rfl, hfail⟩, hp]
  · intro hn
    unfold BaseSlice.pindex at hfail
    simp only at hfail
    show toSize a > v.impl_.len
    by_contra hle
    rw [if_neg hle, if_neg (by omega), if_neg (by omega)] at hfail
    exact hfail rfl

/-- C9, witness: on the view `[0, 2)` of a three-element container, `v(5, 1)` has
`start > len(v)` and `end < start`; the reported index is `end = 1`. -/
theorem call_checked_report_witness :
    (view 0 0 2).call false store3 5 1 = .error (.thrown ⟨(store3 (view 0 0 2).impl_.cont_).length,
        if toSize 1 > (view 0 0 2).impl_.epos_ ∨ toSize 1 < toSize 5 then toSize 1
        else toSize 5⟩) :=
  (call_checked_report store3 (view 0 0 2) 5 1 (by decide)).1

/-- C9, counterexample: on the view `[0, 2)` of a three-element container, `v(5, 1)` has
`start > len(v)` and also `end < start`; the exception reports `end = 1`, not `start = 5`. -/
theorem call_checked_report_counterexample :
    (toSize 5 > len (view 0 0 2) ∧ toSize 1 < toSize 5) ∧
      (view 0 0 2).call false store3 5 1 = .error (.thrown ⟨3, 1⟩) :=
  ⟨by decide, rfl⟩

/-- C10 (as amended).  `make_slice(c, s, e)` throws whenever `s > length(c)`, `e < s` or
`e > length(c)`, and the exception carries `length(c)` together with `s` when `s` is at or beyond
the length of a non-empty container (so also for `s = length(c)`), and otherwise with `e`, which
then satisfies `e < s` or `e > length(c)`; `make_slice(c, e)` throws whenever `e > length(c)`,
carrying `length(c)` and `e`. -/
theorem make_slice_throws {α : Type} (σ : Store α) (c : Ref) (s e : Nat)
    (hsz : (σ c).length < SIZE_MOD) (hs : s < SIZE_MOD) :
    ((s > (σ c).length ∨ e < s ∨ e > (σ c).length) →
      make_slice3 σ c s e = .error (.thrown ⟨(σ c).length,
          if (σ c).length ≤ s ∧ 0 < (σ c).length then s else e⟩) ∧
        (¬ ((σ c).length ≤ s ∧ 0 < (σ c).length) → e < s ∨ e > (σ c).length)) ∧
    (e > (σ c).length → make_slice2 σ c e = .error (.thrown ⟨(σ c).length, e⟩)) := by
  have hp := wrap_pred_size hsz
  refine ⟨fun h => ⟨?_, fun hn => by omega⟩, fun h => ?_⟩
  · by_cases hc : (σ c).length ≤ s ∧ 0 < (σ c).length
    · rw [if_pos hc]; exact make_slice3_at_size hsz hc.1 hc.2
    · rw [if_neg hc, make_slice3_eq, if_neg, if_pos (by omega)]
      rw [hp]; unfold NOPE; unfold SIZE_MOD at hsz hs; split_ifs <;> omega
  · unfold make_slice2 slice.ctor2
    rw [if_pos h]

/-- C10, witness: over the ten-element container of `main`, `make_slice(vec, 3, 11)` throws,
reporting the size 10 and the end offset 11. -/
theorem make_slice_throws_witness :
    make_slice3 vecStore 0 3 11 = .error (.thrown ⟨(vecStore 0).length,
        if (vecStore 0).length ≤ 3 ∧ 0 < (vecStore 0).length then 3 else 11⟩) ∧
      make_slice2 vecStore 0 11 = .error (.thrown ⟨(vecStore 0).length, 11⟩) :=
  ⟨((make_slice_throws vecStore 0 3 11 (by decide) (by decide)).1
      (Or.inr (Or.inr (by decide)))).1,
    (make_slice_throws vecStore 0 3 11 (by decide) (by decide)).2 (by decide)⟩

/-- C10, counterexample: over a one-element container, `make_slice(c, 1, 0)` has `e < s` and
`s` is not beyond the length, so `e = 0` is the offending offset; the exception reports
`s = 1`. -/
theorem make_slice_throws_counterexample :
    ((0 : Nat) < 1 ∧ ¬ 1 > (store1 0).length ∧ ¬ 0 > (store1 0).length) ∧
      make_slice3 store1 0 1 0 = .error (.thrown ⟨1, 1⟩) :=
  ⟨by decide, rfl⟩

/-! ## Build modes, the view invariant, assignment -/

/-- C11, evaluated at the failing inputs: with `NDEBUG` defined (bounds checking disabled), over a
three-element container both overloads of `make_slice` throw for an end offset of 4, and so do the
re-slices `v(0, 4)` and `v(beg, 4)` of the full view `v = [0, 3)`. -/
theorem unchecked_throws_eval :
    make_slice3 store3 0 0 4 = .error (.thrown ⟨3, 4⟩) ∧
      make_slice2 store3 0 4 = .error (.thrown ⟨3, 4⟩) ∧
      (view 0 0 3).call true store3 0 4 = .error (.thrown ⟨3, 4⟩) ∧
      (view 0 0 3).call_beg true store3 Position.beg 4 = .error (.thrown ⟨3, 4⟩) :=
  ⟨rfl, rfl, rfl, rfl⟩

/-- C12.  Every view returned by either overload of `make_slice`, or by any of the four forms of
`operator()` applied to any view, satisfies `start_offset ≤ end_offset ≤ length` of its
container; this holds with bounds checking enabled, and also with it disabled. -/
theorem returned_view_valid {α : Type} (ndebug : Bool) (σ : Store α) (v : slice)
    (h : (∃ c e, make_slice2 σ c e = .ok v) ∨ (∃ c s e, make_slice3 σ c s e = .ok v) ∨
      (∃ u a b, slice.call ndebug σ u a b = .ok v) ∨
      (∃ u p b, slice.call_beg ndebug σ u p b = .ok v) ∨
      (∃ u a p, slice.call_end ndebug σ u a p = .ok v) ∨
      (∃ u p, slice.call_all ndebug σ u p = .ok v)) :
    v.impl_.spos_ ≤ v.impl_.epos_ ∧ v.impl_.epos_ ≤ (σ v.impl_.cont_).length := by
  have ha : Accepted σ v := by
    rcases h with ⟨c, e, h⟩ | ⟨c, s, e, h⟩ | ⟨u, a, b, h⟩ | ⟨u, p, b, h⟩ | ⟨u, a, p, h⟩ | ⟨u, p, h⟩
    · exact (make_slice2_ok h).2
    · exact (make_slice3_ok h).2
    · exact BaseSlice.call_ok h
    · exact BaseSlice.call_beg_ok h
    · exact BaseSlice.call_end_ok h
    · exact BaseSlice.call_all_ok h
  exact valid_of_accepted ha

/-- C12, witness: the view returned by `vslice(beg, 8)` on the full view of the container of
`main`, with bounds checking enabled. -/
theorem returned_view_valid_witness :
    (view 0 0 8).impl_.spos_ ≤ (view 0 0 8).impl_.epos_ ∧
      (view 0 0 8).impl_.epos_ ≤ (vecStore (view 0 0 8).impl_.cont_).length :=
  returned_view_valid false vecStore (view 0 0 8)
    (Or.inr (Or.inr (Or.inr (Or.inl ⟨view 0 0 10, Position.beg, 8, rfl⟩))))

/-- C13, evaluated at the failing input: `t = [0, 3)` views the container `{1, 2, 3}` (reference
0) and `s = [0, 2)` views the container `{7, 8}` (reference 1).  After `t = s`, `t` has the
offsets of `s` but still refers to the container 0, not to the container of `s`, and the elements
of the container 0 have been overwritten with `{7, 8}`. -/
theorem assign_overwrites_eval :
    storeAB 0 = [1, 2, 3] ∧ storeAB 1 = [7, 8] ∧
      (slice.assign storeAB (view 0 0 3) (view 1 0 2)).2 = view 0 0 2 ∧
      (slice.assign storeAB (view 0 0 3) (view 1 0 2)).2.impl_.cont_ ≠ (view 1 0 2).impl_.cont_ ∧
      (slice.assign storeAB (view 0 0 3) (view 1 0 2)).1 0 = [7, 8] :=
  ⟨rfl, rfl, rfl, by decide, rfl⟩

/-- C17.  For every container and every end offset `e`, `make_slice(c, e)` has the outcome of
`make_slice(c, 0, e)`: both throw, reporting the container's size and `e`, when `e` exceeds the
size, and both return the view `[0, e)` otherwise; this includes the empty container. -/
theorem make_slice2_eq_make_slice3 {α : Type} (σ : Store α) (c : Ref) (e : Nat) :
    make_slice2 σ c e = make_slice3 σ c 0 e ∧
      make_slice3 σ c 0 e =
        if e > (σ c).length then .error (.thrown ⟨(σ c).length, e⟩) else .ok (view c 0 e) := by
  have h3 : make_slice3 σ c 0 e =
      if e > (σ c).length then .error (.thrown ⟨(σ c).length, e⟩) else .ok (view c 0 e) := by
    rw [make_slice3_eq, if_neg (by omega)]
    by_cases he : e > (σ c).length
    · rw [if_pos (Or.inl he), if_pos he]
    · rw [if_neg (by omega), if_neg he]
  refine ⟨?_, h3⟩
  rw [h3]
  unfold make_slice2 slice.ctor2
  rfl

/-- The validation inside the checked `v(start, end)`, for an end offset below the sentinel
`2^64 - 1`: it rejects the call exactly when `start > len(v)`, `end < start` or
`end > end_offset(v)`, so the end offset is bounded by the absolute end offset of the view, not
by its length; and there is a view `v` returned by `make_slice`, with `start_offset(v) > 0`, and
an end offset with `len(v) < end ≤ end_offset(v)`, for which `v(0, end)` is accepted and returns
a view that ends after the end of `v`. -/
theorem pindex_rejects_iff (v : slice) (s e : Nat) (he : e < NOPE) :
    (BaseSlice.pindex v.impl_ s e ≠ NOPE ↔ (s > len v ∨ e < s ∨ e > v.impl_.epos_)) ∧
      ∃ (u w : slice) (e1 : Nat), make_slice3 store3 0 1 2 = .ok u ∧ 0 < u.impl_.spos_ ∧
        len u < e1 ∧ e1 ≤ u.impl_.epos_ ∧ u.call false store3 0 (e1 : Int) = .ok w ∧
        u.impl_.epos_ < w.impl_.epos_ := by
  constructor
  · unfold BaseSlice.pindex
    simp only
    show _ ↔ (s > v.impl_.len ∨ _)
    split_ifs <;> simp_all <;> omega
  · exact ⟨view 0 1 2, view 0 1 3, 2, rfl, by decide, by decide, by decide, rfl, by decide⟩

/-- An instance of `pindex_rejects_iff`: on the view `[1, 2)`, the offsets `(0, 2)` are not
rejected although `2 > len(v) = 1`. -/
theorem pindex_rejects_iff_witness :
    (BaseSlice.pindex (view 0 1 2).impl_ 0 2 ≠ NOPE ↔
      (0 > len (view 0 1 2) ∨ 2 < 0 ∨ 2 > (view 0 1 2).impl_.epos_)) :=
  (pindex_rejects_iff (view 0 1 2) 0 2 (by decide)).1

/-- C18, evaluated at the failing input: on the view `[1, 2)` of a three-element container,
with bounds checking enabled, `v(-1, -1)` has `end = 2^64 - 1 > end_offset(v)` and
`start = 2^64 - 1 > len(v)`; both tests store the value of the sentinel in `pindex`, the
validation does not reject the call, and it returns the view `[0, 0)`. -/
theorem call_sentinel_end_eval :
    make_slice3 store3 0 1 2 = .ok (view 0 1 2) ∧
      toSize (-1) = NOPE ∧ toSize (-1) > (view 0 1 2).impl_.epos_ ∧
      toSize (-1) > len (view 0 1 2) ∧
      BaseSlice.pindex (view 0 1 2).impl_ (toSize (-1)) (toSize (-1)) = NOPE ∧
      (view 0 1 2).call false store3 (-1) (-1) = .ok (view 0 0 0) :=
  ⟨rfl, rfl, by decide, by decide, rfl, rfl⟩

/-- C19, evaluated at the failing input: the first rendering of an exception carrying the size 3
and the index 4 is the three-line text; a second rendering, of the same exception, returns the
first text followed by the text again, as the shared stream keeps its contents. -/
theorem what_twice_eval :
    (OutOfRangeException.what ⟨3, 4⟩ "").1
        = "Out of range\nContainer size = 3\nIndexed size = 4" ∧
      (OutOfRangeException.what ⟨3, 4⟩ (OutOfRangeException.what ⟨3, 4⟩ "").2).1
        = "Out of range\nContainer size = 3\nIndexed size = 4Out of range\nContainer size = 3\nIndexed size = 4" :=
  ⟨by decide, by decide⟩

/-- C20.  For the ascending containers `{1, 2}` and `{1, 3, 5, 7, 9}` and the absent values 3
and 10, `binary_search` over the full view re-slices with `(mid + 1, end)` at the end of the
container and throws the out-of-range exception instead of returning `false`, with bounds
checking enabled and with it disabled. -/
theorem binary_search_absent_throws :
    (make_slice2 store12 0 2 = .ok (view 0 0 2) ∧ (3 : Int) ∉ store12 0 ∧
      (view 0 0 2).call_end false store12 (1 + 1) Position.end_ = .error (.thrown ⟨2, 2⟩) ∧
      binary_search false store12 2 (view 0 0 2) 3 = some (.error (.thrown ⟨2, 2⟩)) ∧
      binary_search true store12 2 (view 0 0 2) 3 = some (.error (.thrown ⟨2, 2⟩))) ∧
    (make_slice2 storeOdd 0 5 = .ok (view 0 0 5) ∧ (10 : Int) ∉ storeOdd 0 ∧
      binary_search false storeOdd 5 (view 0 0 5) 10 = some (.error (.thrown ⟨5, 5⟩)) ∧
      binary_search true storeOdd 5 (view 0 0 5) 10 = some (.error (.thrown ⟨5, 5⟩))) :=
  ⟨⟨rfl, by decide, rfl, rfl, rfl⟩, rfl, by decide, rfl, rfl⟩

/-! ## `binary_search` on a present value -/

theorem toInt_of_lt {n : Nat} (h : n < 2147483648) : toInt n = (n : Int) := by
  unfold toInt
  have h1 : n % 4294967296 = n := Nat.mod_eq_of_lt (by omega)
  rw [h1, if_pos h]

theorem sorted_getElem?_le {α : Type} [LinearOrder α] {l : List α} (h : l.Sorted (· ≤ ·))
    {i j : Nat} {a b : α} (hij : i ≤ j) (hi : l[i]? = some a) (hj : l[j]? = some b) : a ≤ b := by
  obtain ⟨hi1, rfl⟩ := List.getElem?_eq_some.1 hi
  obtain ⟨hj1, rfl⟩ := List.getElem?_eq_some.1 hj
  rcases Nat.eq_or_lt_of_le hij with heq | hlt
  · subst heq; exact le_refl _
  · exact List.pairwise_iff_getElem.1 h i j hi1 hj1 hlt

theorem index_in_range {α : Type} (ndebug : Bool) {σ : Store α} {v : slice} {i : Nat} {x : α}
    (h1 : v.impl_.spos_ ≤ v.impl_.epos_) (h2 : v.impl_.epos_ < SIZE_MOD)
    (hi : i < v.impl_.epos_ - v.impl_.spos_)
    (hx : (σ v.impl_.cont_)[v.impl_.spos_ + i]? = some x) :
    v.index ndebug σ i = .ok x := by
  have hl := len_eq_sub h1 h2
  unfold slice.index ContiguousContSlice.index
  rw [if_neg (by rw [hl]; simp; omega), wrap_of_lt (by omega), hx]

theorem call_end_natCast {α : Type} (ndebug : Bool) (σ : Store α) (v : slice) (k : Nat)
    (hk : v.impl_.spos_ + k < SIZE_MOD) :
    v.call_end ndebug σ (k : Int) Position.end_ =
      make_slice3 σ v.impl_.cont_ (v.impl_.spos_ + k) v.impl_.epos_ := by
  unfold slice.call_end BaseSlice.call_end
  rw [if_neg (by simp), if_neg (by simp), toSize_natCast (by omega), wrap_of_lt hk]

theorem call_beg_natCast {α : Type} (ndebug : Bool) (σ : Store α) (v : slice) (k : Nat)
    (hk : v.impl_.spos_ + k < SIZE_MOD) :
    v.call_beg ndebug σ Position.beg (k : Int) =
      make_slice3 σ v.impl_.cont_ v.impl_.spos_ (v.impl_.spos_ + k) := by
  unfold slice.call_beg BaseSlice.call_beg
  rw [if_neg (by simp), if_neg (by simp), toSize_natCast (by omega), wrap_of_lt hk]

theorem binary_search_in_range {α : Type} [LinearOrder α] (ndebug : Bool) (σ : Store α)
    (x : α) : ∀ (fuel : Nat) (v : slice) (p : Nat), v.impl_.spos_ ≤ p → p < v.impl_.epos_ →
      v.impl_.epos_ ≤ (σ v.impl_.cont_).length → (σ v.impl_.cont_).length < 4294967294 →
      (σ v.impl_.cont_).Sorted (· ≤ ·) → (σ v.impl_.cont_)[p]? = some x →
      v.impl_.epos_ - v.impl_.spos_ ≤ fuel →
      binary_search ndebug σ fuel v x = some (.ok true) := by
  intro fuel
  induction fuel with
  | zero => intro v p h1 h2 _ _ _ _ hf; omega
  | succ fuel ih =>
    intro v p h1 h2 h3 hsz hsorted hp hf
    have hM : (σ v.impl_.cont_).length < SIZE_MOD := by unfold SIZE_MOD; omega
    have heM : v.impl_.epos_ < SIZE_MOD := by omega
    have hse : v.impl_.spos_ ≤ v.impl_.epos_ := by omega
    have hl : len v = v.impl_.epos_ - v.impl_.spos_ := len_eq_sub hse heM
    have hmid : toInt (len v / 2) = (((v.impl_.epos_ - v.impl_.spos_) / 2 : Nat) : Int) := by
      rw [hl]; exact toInt_of_lt (by omega)
    have hlt : v.impl_.spos_ + (v.impl_.epos_ - v.impl_.spos_) / 2 < (σ v.impl_.cont_).length := by
      omega
    obtain ⟨y, hy⟩ : ∃ y, (σ v.impl_.cont_)[v.impl_.spos_ +
        (v.impl_.epos_ - v.impl_.spos_) / 2]? = some y := ⟨_, List.getElem?_eq_getElem hlt⟩
    have hidx := index_in_range ndebug hse heM (by omega) hy
    unfold binary_search
    simp only [hmid]
    rw [toSize_natCast (by unfold SIZE_MOD; omega), hidx]
    simp only []
    by_cases hyx : y = x
    · rw [if_pos hyx]
    · rw [if_neg hyx]
      by_cases hm : (((v.impl_.epos_ - v.impl_.spos_) / 2 : Nat) : Int) = 0
      · exfalso
        have hm0 : (v.impl_.epos_ - v.impl_.spos_) / 2 = 0 := by exact_mod_cast hm
        have hpe : p = v.impl_.spos_ + (v.impl_.epos_ - v.impl_.spos_) / 2 := by omega
        rw [← hpe, hp] at hy
        exact hyx (Option.some.inj hy).symm
      · rw [if_neg hm]
        have hm0 : (v.impl_.epos_ - v.impl_.spos_) / 2 ≠ 0 := by
          intro h0; apply hm; rw [h0]; rfl
        by_cases hgt : x > y
        · rw [if_pos hgt]
          have hpgt : v.impl_.spos_ + (v.impl_.epos_ - v.impl_.spos_) / 2 < p := by
            by_contra hle
            have := sorted_getElem?_le hsorted (not_lt.1 hle) hp hy
            exact absurd hgt (not_lt.2 this)
          have hcast : (((v.impl_.epos_ - v.impl_.spos_) / 2 : Nat) : Int) + 1
              = (((v.impl_.epos_ - v.impl_.spos_) / 2 + 1 : Nat) : Int) := by push_cast; rfl
          rw [hcast, call_end_natCast ndebug σ v _ (by omega),
            make_slice3_in_range hM (by omega) h3 (Or.inl (by omega))]
          simp only []
          exact ih (view v.impl_.cont_ _ v.impl_.epos_) p (by simp only [view]; omega)
            (by simp only [view]; omega) h3 hsz hsorted hp (by simp only [view]; omega)
        · rw [if_neg hgt]
          have hplt : p < v.impl_.spos_ + (v.impl_.epos_ - v.impl_.spos_) / 2 := by
            by_contra hle
            have hle1 := sorted_getElem?_le hsorted (not_lt.1 hle) hy hp
            exact hgt (lt_of_le_of_ne hle1 hyx)
          rw [call_beg_natCast ndebug σ v _ (by omega),
            make_slice3_in_range hM (by omega) (by omega) (Or.inl (by omega))]
          simp only []
          exact ih (view v.impl_.cont_ v.impl_.spos_ _) p (by simp only [view]; omega)
            (by simp only [view]; omega) (by simp only [view]; omega) hsz hsorted hp
            (by simp only [view]; omega)

/-- C16 (as amended).  For every container of fewer than `2^32 - 2` elements (so that `len / 2`
and `mid + 1` are values of `int`) that is sorted in ascending order, and every value `x` that
occurs in it, `make_slice(c, length(c))` returns the full view and `binary_search` over it, in
either build mode, returns `true` within a recursion depth of `length(c)`. -/
theorem binary_search_finds {α : Type} [LinearOrder α] (ndebug : Bool) (σ : Store α) (c : Ref)
    (x : α) (fuel : Nat) (hsz : (σ c).length < 4294967294) (hsorted : (σ c).Sorted (· ≤ ·))
    (hx : x ∈ σ c) (hfuel : (σ c).length ≤ fuel) :
    make_slice2 σ c (σ c).length = .ok (view c 0 (σ c).length) ∧
      binary_search ndebug σ fuel (view c 0 (σ c).length) x = some (.ok true) := by
  obtain ⟨p, hp⟩ := List.mem_iff_getElem?.1 hx
  have hpl : p < (σ c).length := (List.getElem?_eq_some.1 hp).1
  constructor
  · unfold make_slice2 slice.ctor2
    rw [if_neg (by omega)]
    rfl
  · exact binary_search_in_range ndebug σ x fuel (view c 0 (σ c).length) p (Nat.zero_le _)
      hpl (le_refl _) hsz hsorted hp (by simp only [view]; omega)

/-- C16, witness: the two searches of `binary_search_ex`, for 6 in `{1, ..., 10}` and for `'!'`
in `"!ABCDEFGH"`. -/
theorem binary_search_finds_witness :
    binary_search false vecStore 10 (view 0 0 (vecStore 0).length) 6 = some (.ok true) ∧
      binary_search false strStore 9 (view 0 0 (strStore 0).length) '!' = some (.ok true) :=
  ⟨(binary_search_finds false vecStore 0 6 10 (by decide) (by decide) (by decide)
      (by decide)).2,
    (binary_search_finds false strStore 0 '!' 9 (by decide) (by decide) (by decide)
      (by decide)).2⟩

/-! ## Writing and iterating -/

/-- The state of the container of `vslice` after the first `i` rounds of the loop, relative to
the store `σ0` at its entry. -/
theorem increment_loop_spec {α : Type} (inc : α → α) (ndebug : Bool) (v : slice) (σ0 : Store α)
    (hv : Valid σ0 v) (hsz : (σ0 v.impl_.cont_).length < SIZE_MOD) :
    ∀ (n i : Nat) (σ : Store α), n = len v - i → i ≤ len v →
      (σ v.impl_.cont_).length = (σ0 v.impl_.cont_).length →
      (∀ j, (σ v.impl_.cont_)[j]? =
        if v.impl_.spos_ ≤ j ∧ j < v.impl_.spos_ + i then ((σ0 v.impl_.cont_)[j]?).map inc
        else (σ0 v.impl_.cont_)[j]?) →
      (∀ r, r ≠ v.impl_.cont_ → σ r = σ0 r) →
      ∃ σ1, increment_loop inc ndebug v σ i = .ok σ1 ∧
        (σ1 v.impl_.cont_).length = (σ0 v.impl_.cont_).length ∧
        (∀ j, (σ1 v.impl_.cont_)[j]? =
          if v.impl_.spos_ ≤ j ∧ j < v.impl_.epos_ then ((σ0 v.impl_.cont_)[j]?).map inc
          else (σ0 v.impl_.cont_)[j]?) ∧
        (∀ r, r ≠ v.impl_.cont_ → σ1 r = σ0 r) := by
  obtain ⟨h1, h2⟩ := hv
  have h3 : v.impl_.epos_ < SIZE_MOD := lt_of_le_of_lt h2 hsz
  have hl : len v = v.impl_.epos_ - v.impl_.spos_ := len_eq_sub h1 h3
  intro n
  induction n with
  | zero =>
    intro i σ hn hi hlen hpt hfr
    have hie : v.impl_.spos_ + i = v.impl_.epos_ := by omega
    refine ⟨σ, ?_, hlen, ?_, hfr⟩
    · rw [increment_loop, if_neg (by omega)]
    · intro j; rw [hpt j, hie]
  | succ n ih =>
    intro i σ hn hi hlen hpt hfr
    have hilt : i < len v := by omega
    have hlt : v.impl_.spos_ + i < (σ0 v.impl_.cont_).length := by omega
    obtain ⟨y, hy⟩ : ∃ y, (σ0 v.impl_.cont_)[v.impl_.spos_ + i]? = some y :=
      ⟨_, List.getElem?_eq_getElem hlt⟩
    have hy1 : (σ v.impl_.cont_)[v.impl_.spos_ + i]? = some y := by
      rw [hpt, if_neg (by omega), hy]
    have hstep : v.increment inc ndebug σ i = .ok (Function.update σ v.impl_.cont_
        ((σ v.impl_.cont_).set (v.impl_.spos_ + i) (inc y))) := by
      unfold slice.increment ContiguousContSlice.increment
      rw [if_neg (fun h => h.2 hilt), wrap_of_lt (by omega), hy1]
    rw [increment_loop, if_pos hilt, hstep]
    simp only []
    apply ih
    · omega
    · omega
    · rw [Function.update_same, List.length_set, hlen]
    · intro j
      rw [Function.update_same, List.getElem?_set]
      by_cases hj : v.impl_.spos_ + i = j
      · subst hj
        rw [if_pos rfl, if_pos (by omega), if_pos (by omega), hy]
        rfl
      · rw [if_neg hj, hpt j]
        by_cases hj2 : v.impl_.spos_ ≤ j ∧ j < v.impl_.spos_ + i
        · rw [if_pos hj2, if_pos (by omega)]
        · rw [if_neg hj2, if_neg (by omega)]
    · intro r hr
      rw [Function.update_noteq hr, hfr r hr]

/-- C14.  For a valid view `v = [s, e)` of a container, the loop `v[i]++` for
`i = 0, ..., len(v) - 1` runs to its end in either build mode, and afterwards the container of
`v` has its length unchanged, every element at a position in `[s, e)` incremented once and every
other element unchanged, and no other container is changed; for the full view the container is
the old one with every element incremented.  The loop does not assign to `v`, whose bounds stay
as they are. -/
theorem increment_loop_aliases {α : Type} (inc : α → α) (ndebug : Bool) (σ : Store α)
    (v : slice) (hv : Valid σ v) (hsz : (σ v.impl_.cont_).length < SIZE_MOD) :
    ∃ σ1, increment_loop inc ndebug v σ 0 = .ok σ1 ∧
      (σ1 v.impl_.cont_).length = (σ v.impl_.cont_).length ∧
      (∀ j, v.impl_.spos_ ≤ j → j < v.impl_.epos_ →
        (σ1 v.impl_.cont_)[j]? = ((σ v.impl_.cont_)[j]?).map inc) ∧
      (∀ j, ¬ (v.impl_.spos_ ≤ j ∧ j < v.impl_.epos_) →
        (σ1 v.impl_.cont_)[j]? = (σ v.impl_.cont_)[j]?) ∧
      (∀ r, r ≠ v.impl_.cont_ → σ1 r = σ r) ∧
      (v.impl_.spos_ = 0 → v.impl_.epos_ = (σ v.impl_.cont_).length →
        σ1 v.impl_.cont_ = (σ v.impl_.cont_).map inc) := by
  obtain ⟨σ1, hrun, hlen, hpt, hfr⟩ := increment_loop_spec inc ndebug v σ hv hsz (len v - 0) 0 σ
    rfl (Nat.zero_le _) rfl (fun j => by rw [if_neg (by omega)]) (fun _ _ => rfl)
  refine ⟨σ1, hrun, hlen, fun j hj1 hj2 => ?_, fun j hj => ?_, hfr, fun hs he => ?_⟩
  · rw [hpt j, if_pos ⟨hj1, hj2⟩]
  · rw [hpt j, if_neg hj]
  · apply List.ext_getElem?
    intro j
    rw [hpt j, List.getElem?_map]
    by_cases hj : v.impl_.spos_ ≤ j ∧ j < v.impl_.epos_
    · rw [if_pos hj]
    · rw [if_neg hj]
      have hge : (σ v.impl_.cont_).length ≤ j := by omega
      rw [List.getElem?_eq_none hge]
      rfl

/-- C14, witness: the loop of `main` on the full view of `{1, ..., 10}` leaves the container
`{2, ..., 11}`. -/
theorem increment_loop_aliases_witness :
    ∃ σ1, increment_loop (fun x : Int => x + 1) false (view 0 0 10) vecStore 0 = .ok σ1 ∧
      σ1 0 = [2, 3, 4, 5, 6, 7, 8, 9, 10, 11] := by
  obtain ⟨σ1, hrun, -, -, -, -, hfull⟩ :=
    increment_loop_aliases (fun x : Int => x + 1) false vecStore (view 0 0 10) (by decide)
      (by decide)
  exact ⟨σ1, hrun, hfull rfl rfl⟩

theorem traverse_spec {α : Type} (l : List α) (last : Nat) (hlast : last ≤ l.length) :
    ∀ (n it : Nat), n = last - it → it ≤ last →
      ∃ L, traverse l it last = .ok L ∧ L.length = n ∧
        ∀ i, i < n → ∃ x, l[it + i]? = some x ∧ L[i]? = some (it + i, x) := by
  intro n
  induction n with
  | zero =>
    intro it hn hit
    have : it = last := by omega
    refine ⟨[], ?_, rfl, fun i hi => absurd hi (Nat.not_lt_zero i)⟩
    rw [traverse, if_pos this]
  | succ n ih =>
    intro it hn hit
    have hne : it ≠ last := by omega
    have hlt : it < l.length := by omega
    obtain ⟨L, hL, hlen, hpt⟩ := ih (it + 1) (by omega) (by omega)
    refine ⟨(it, l[it]) :: L, ?_, by simp [hlen], ?_⟩
    · rw [traverse, if_neg hne, dif_pos hlt, hL]
    · intro i hi
      cases i with
      | zero => exact ⟨l[it], List.getElem?_eq_getElem hlt, List.getElem?_cons_zero⟩
      | succ k =>
        obtain ⟨x, hx1, hx2⟩ := hpt k (by omega)
        refine ⟨x, ?_, ?_⟩
        · rw [← hx1]; congr 1; omega
        · rw [List.getElem?_cons_succ, hx2]; congr 2; omega

/-- C15.  Iterating a valid view `v` runs to its end and dereferences `len(v)` positions: the
`i`-th one is `start_offset(v) + i` and the element read there is `v[i]`, so every position
visited lies in `[start_offset(v), end_offset(v))`, and they are visited in increasing order. -/
theorem iterate_visits {α : Type} (ndebug : Bool) (σ : Store α) (v : slice) (hv : Valid σ v)
    (hsz : (σ v.impl_.cont_).length < SIZE_MOD) :
    ∃ L, v.iterate σ = .ok L ∧ L.length = len v ∧
      (∀ i, i < len v → ∃ x, v.index ndebug σ i = .ok x ∧ L[i]? = some (v.impl_.spos_ + i, x)) ∧
      (∀ q, q ∈ L → v.impl_.spos_ ≤ q.1 ∧ q.1 < v.impl_.epos_) := by
  obtain ⟨h1, h2⟩ := hv
  have h3 : v.impl_.epos_ < SIZE_MOD := lt_of_le_of_lt h2 hsz
  have hl : len v = v.impl_.epos_ - v.impl_.spos_ := len_eq_sub h1 h3
  obtain ⟨L, hL, hlen, hpt⟩ := traverse_spec (σ v.impl_.cont_) v.impl_.epos_ h2
    (v.impl_.epos_ - v.impl_.spos_) v.impl_.spos_ rfl h1
  refine ⟨L, hL, by rw [hlen, hl], fun i hi => ?_, fun q hq => ?_⟩
  · obtain ⟨x, hx1, hx2⟩ := hpt i (by omega)
    exact ⟨x, index_in_range ndebug h1 h3 (by omega) hx1, hx2⟩
  · obtain ⟨k, hk⟩ := List.mem_iff_getElem?.1 hq
    have hkl : k < L.length := (List.getElem?_eq_some.1 hk).1
    obtain ⟨x, -, hx2⟩ := hpt k (by omega)
    rw [hk] at hx2
    have hq1 : q = (v.impl_.spos_ + k, x) := Option.some.inj hx2
    rw [hq1]
    constructor
    · exact Nat.le_add_right _ _
    · show v.impl_.spos_ + k < v.impl_.epos_
      omega

/-- C15, witness: iterating the view `[2, 5)` of the container of `main` visits three
positions. -/
theorem iterate_visits_witness :
    ∃ L, (view 0 2 5).iterate vecStore = .ok L ∧ L.length = len (view 0 2 5) ∧
      (∀ i, i < len (view 0 2 5) → ∃ x, (view 0 2 5).index false vecStore i = .ok x ∧
        L[i]? = some ((view 0 2 5).impl_.spos_ + i, x)) ∧
      (∀ q, q ∈ L → (view 0 2 5).impl_.spos_ ≤ q.1 ∧ q.1 < (view 0 2 5).impl_.epos_) :=
  iterate_visits false vecStore (view 0 2 5) (by decide) (by decide)

theorem binary_search_assertion {α : Type} [LinearOrder α] (σ : Store α) (fuel : Nat)
    (v : slice) (x : α) (h : ¬ toSize (toInt (len v / 2)) < len v) :
    binary_search false σ (fuel + 1) v x = some (.error .assertion) := by
  unfold binary_search
  simp only []
  unfold slice.index ContiguousContSlice.index
  rw [if_pos ⟨rfl, h⟩]

theorem bigStore_length (r : Ref) : (bigStore r).length = 4294967296 :=
  List.length_replicate _ _

/-- C16, counterexample: a container of `2^32` equal characters is sorted and contains `'a'`, and
`make_slice` returns its full view; there `len / 2 = 2^31` becomes the `int` `-2^31`, and with
bounds checking enabled `binary_search` stops at the failed assertion of `slice[mid]` instead of
returning `true`.  Already for a length of `2^32 - 2` the midpoint is the largest `int`,
`2^31 - 1`, and `mid + 1` is not a value of `int`. -/
theorem binary_search_finds_counterexample :
    (bigStore 0).length = 4294967296 ∧ (bigStore 0).Sorted (· ≤ ·) ∧ 'a' ∈ bigStore 0 ∧
      make_slice2 bigStore 0 4294967296 = .ok (view 0 0 4294967296) ∧
      toInt (len (view 0 0 4294967296) / 2) = -2147483648 ∧
      binary_search false bigStore 1 (view 0 0 4294967296) 'a' = some (.error .assertion) ∧
      (toInt (len (view 0 0 4294967294) / 2) = 2147483647 ∧
        toInt (len (view 0 0 4294967294) / 2) + 1 ≠ toInt (2147483647 + 1)) := by
  refine ⟨bigStore_length 0, ?_, List.mem_replicate.2 ⟨by decide, rfl⟩, ?_, by decide, ?_,
    by decide⟩
  · unfold bigStore List.Sorted
    rw [List.pairwise_replicate]
    exact Or.inr (le_refl _)
  · unfold make_slice2 slice.ctor2
    rw [if_neg (by rw [bigStore_length]; decide)]
    rfl
  · exact binary_search_assertion bigStore 0 (view 0 0 4294967296) 'a' (by decide)

end Slices
